import Mathlib

/-!
Verification of the layout-and-draw engine of the `presenterm` slide renderer.

The development shallowly embeds the Rust sources:
  * `src/render/layout.rs` — the positioning calculator (`Layout::compute`);
  * `src/draw.rs` — the slide drawer, element drawers, styled-text
    wrapper/drawer (`TextDrawer`), and the terminal session guard.

Machine integers (`u16`, `usize`) are modelled as `Nat`.  Rust's
`saturating_sub` on unsigned integers is exactly `Nat` subtraction;
`saturating_mul`/`saturating_add` and the plain (wrapping-on-release)
`u16` operations are spelled out explicitly below.  Fallible operations
(string slicing at a non-character boundary, a `match` with no arm for
the scrutinee's variant, checked underflow) are modelled with `Option`.
-/

namespace Presenterm

/-- Largest `u16` value. -/
def u16Max : Nat := 65535

/-- `u16::saturating_mul(self, 2)`. -/
def satMul2 (m : Nat) : Nat := min (2 * m) u16Max

/-- `u16::saturating_add`. -/
def satAdd (a b : Nat) : Nat := min (a + b) u16Max

/-- Plain `u16` subtraction `a - b` under release (two's-complement
wrapping) semantics; meaningful for `a, b ≤ u16Max`. -/
def wrapSub (a b : Nat) : Nat := (a + 65536 - b) % 65536

/-- Plain `u16` multiplication by 2 under wrapping semantics. -/
def wrapMul2 (m : Nat) : Nat := 2 * m % 65536

/-! ## Positioning calculator (`src/render/layout.rs`) -/

/-- `WindowSize` from `crossterm`: character-cell dimensions.  The pixel
fields are unused by layout and omitted. -/
structure WindowSize where
  rows : Nat
  columns : Nat
deriving DecidableEq, Repr

/-- `theme::Alignment` (declared outside `src/`; its three variants are
matched exhaustively by `Layout::compute`). -/
inductive Alignment where
  | left (margin : Nat)
  | right (margin : Nat)
  | center (minimumMargin minimumSize : Nat)
deriving DecidableEq, Repr

/-- `layout::Positioning`. -/
structure Positioning where
  maxLineLength : Nat
  startColumn : Nat
deriving DecidableEq, Repr

/-- `Layout::fit_to_columns`. -/
def fitToColumns (columns requiredFit actualFit : Nat) : Nat :=
  if requiredFit > columns then 0 else actualFit

/-- `Layout::compute` from `src/render/layout.rs`. -/
def Layout.compute (a : Alignment) (dims : WindowSize) (textLength : Nat) :
    Positioning :=
  match a with
  | .left margin =>
      let margin := fitToColumns dims.columns (satMul2 margin) margin
      { startColumn := margin
        maxLineLength := wrapSub dims.columns (satMul2 margin) }
  | .right margin =>
      let margin := fitToColumns dims.columns (satMul2 margin) margin
      let startColumn := max (dims.columns - margin - textLength) margin
      { startColumn
        maxLineLength := wrapSub (wrapSub dims.columns margin) startColumn }
  | .center minimumMargin minimumSize =>
      let minimumMargin :=
        fitToColumns dims.columns (satMul2 minimumMargin) minimumMargin
      let minimumSize :=
        fitToColumns dims.columns (satAdd minimumSize (satMul2 minimumMargin))
          minimumSize
      let maxLineLength :=
        max (min textLength (wrapSub dims.columns (satMul2 minimumMargin)))
          minimumSize
      let startColumn :=
        if maxLineLength > dims.columns then minimumMargin
        else max (wrapSub dims.columns maxLineLength / 2) minimumMargin
      { maxLineLength, startColumn }

/-- The alignment's numeric fields are in `u16` range. -/
def Alignment.fieldsLe (a : Alignment) : Prop :=
  match a with
  | .left m => m ≤ u16Max
  | .right m => m ≤ u16Max
  | .center mm ms => mm ≤ u16Max ∧ ms ≤ u16Max

instance (a : Alignment) : Decidable a.fieldsLe := by
  unfold Alignment.fieldsLe
  cases a <;> infer_instance

/-- The Center rule exactly as the specification words it: degrade
`minimum_margin` to 0 when `minimum_margin*2` exceeds columns, degrade
`minimum_size` to 0 when `minimum_size + minimum_margin*2` exceeds
columns, then `max_line_length = clamp(content_length, minimum_size,
columns − minimum_margin*2)` and `start_column = minimum_margin` when the
clamped value exceeds columns, else
`max(minimum_margin, (columns − max_line_length)/2)` with floor division.
(`clamp(x, lo, hi) = min (max x lo) hi`.) -/
def centerSpecCompute (minimumMargin minimumSize columns textLength : Nat) :
    Positioning :=
  let mm := if 2 * minimumMargin > columns then 0 else minimumMargin
  let ms := if minimumSize + 2 * mm > columns then 0 else minimumSize
  let mll := min (max textLength ms) (columns - 2 * mm)
  let sc := if mll > columns then mm else max mm ((columns - mll) / 2)
  { maxLineLength := mll, startColumn := sc }

/-! ## Strings as character lists with UTF-8 byte accounting

Rust `&str` values are modelled as `List Char`; `str::len` is the UTF-8
byte length, and byte-indexed slicing is fallible (a panic at a
non-character boundary). -/

/-- `char::len_utf8`: the UTF-8 encoded size of a character in bytes. -/
def charBytes (c : Char) : Nat :=
  if c.toNat < 0x80 then 1
  else if c.toNat < 0x800 then 2
  else if c.toNat < 0x10000 then 3
  else 4

/-- `str::len`: UTF-8 byte length. -/
def byteLen (s : List Char) : Nat := (s.map charBytes).sum

/-- Whether byte index `n` is a character boundary of `s`
(`str::is_char_boundary`). -/
def isCharBoundary (s : List Char) (n : Nat) : Bool :=
  (List.range (s.length + 1)).any (fun k => byteLen (s.take k) == n)

/-- The byte slice `&s[0..n]`: `some` prefix of characters whose byte
length is exactly `n`, or `none` when `n` is not a character boundary
(in Rust, a panic). -/
def takeBytes : List Char → Nat → Option (List Char)
  | _, 0 => some []
  | [], _ + 1 => none
  | c :: cs, n + 1 =>
      if charBytes c ≤ n + 1 then (takeBytes cs (n + 1 - charBytes c)).map (c :: ·)
      else none

/-- `char::is_whitespace`, restricted to its ASCII fragment (space, tab,
line feed, vertical tab, form feed, carriage return); every string in
this development is ASCII. -/
def isRustWhitespace (c : Char) : Bool :=
  c == ' ' || c == '\t' || c == '\n' || c == '\r' ||
  c.toNat == 0x0B || c.toNat == 0x0C

/-- `str::trim`: remove leading and trailing whitespace. -/
def trimChars (s : List Char) : List Char :=
  ((s.dropWhile isRustWhitespace).reverse.dropWhile isRustWhitespace).reverse

/-- `str::rsplit_once(' ')`: split around the last space, `none` when the
string contains no space. -/
def rsplitOnceSpace : List Char → Option (List Char × List Char)
  | [] => none
  | c :: cs =>
      match rsplitOnceSpace cs with
      | some (before, after) => some (c :: before, after)
      | none => if c == ' ' then some ([], cs) else none

/-- `TextDrawer::truncate` from `src/draw.rs`: take the whole word when it
fits in `line_length` bytes, otherwise byte-slice the first `line_length`
bytes, back off to the last space inside that slice when there is one, and
trim the remainder.  Returns `none` when `&word[0..line_length]` falls
inside a multi-byte character (a panic in Rust). -/
def truncate (lineLength : Nat) (word : List Char) :
    Option (List Char × List Char) :=
  if byteLen word ≤ lineLength then some (word, [])
  else
    match takeBytes word lineLength with
    | none => none
    | some targetChunk =>
        let outputChunk :=
          match rsplitOnceSpace targetChunk with
          | some (before, _) => before
          | none => targetChunk
        some (outputChunk, trimChars (word.drop outputChunk.length))

/-! ## Styled text and queued terminal commands (`src/draw.rs`) -/

/-- `theme::Colors` as used by `draw.rs`: optional default foreground,
background and inline-code tint; colors are abstracted as naturals. -/
structure Colors where
  foreground : Option Nat
  background : Option Nat
  code : Option Nat
deriving DecidableEq, Repr

/-- `elements::TextFormat`: the bold/italics/inline-code flag set. -/
structure TextFormat where
  bold : Bool
  italics : Bool
  code : Bool
deriving DecidableEq, Repr

/-- `elements::FormattedText`. -/
structure FormattedText where
  text : List Char
  format : TextFormat
deriving DecidableEq, Repr

/-- `FormattedText::plain`. -/
def FormattedText.plain (t : List Char) : FormattedText :=
  { text := t, format := { bold := false, italics := false, code := false } }

/-- A `crossterm` `StyledContent` as built in `TextDrawer::draw`. -/
structure Styled where
  content : List Char
  bold : Bool
  italic : Bool
  color : Option Nat
deriving DecidableEq, Repr

/-- One queued terminal command (`crossterm` commands observable on the
output sink). -/
inductive Command where
  | moveTo (row column : Nat)
  | moveToRow (row : Nat)
  | moveToColumn (column : Nat)
  | moveDown (rows : Nat)
  | moveToNextLine (lines : Nat)
  | clearAll
  | setBackgroundColor (c : Nat)
  | setForegroundColor (c : Nat)
  | setAttributeBold
  | setAttributeReset
  | print (s : List Char)
  | printStyled (s : Styled)
  | drawImage (url : List Char)
  | flush
deriving DecidableEq, Repr

/-- `apply_colors` from `src/draw.rs`: queue the background color when
present, then the foreground color when present. -/
def applyColorsCmds (colors : Colors) : List Command :=
  (match colors.background with
   | some c => [Command.setBackgroundColor c]
   | none => []) ++
  (match colors.foreground with
   | some c => [Command.setForegroundColor c]
   | none => [])

/-- The styling steps of the `TextDrawer::draw` loop body: bold and italics
from the span's flags; inline-code renders italic and, when the theme
defines a code color, tinted with it. -/
def styleChunk (defaultColors : Colors) (fmt : TextFormat) (chunk : List Char) :
    Styled :=
  let s : Styled := { content := chunk, bold := false, italic := false, color := none }
  let s := if fmt.bold then { s with bold := true } else s
  let s := if fmt.italics then { s with italic := true } else s
  if fmt.code then
    match defaultColors.code with
    | some c => { s with italic := true, color := some c }
    | none => { s with italic := true }
  else s

/-! ## The styled-text wrapper/drawer (`TextDrawer`) -/

/-- The `TextDrawer` state after construction. -/
structure TextDrawerState where
  elements : List FormattedText
  startColumn : Nat
  lineLength : Nat
  defaultColors : Colors
deriving DecidableEq, Repr

/-- `ElementStyle` from the theme: only its `alignment` field is read by
`draw.rs`. -/
structure ElementStyle where
  alignment : Alignment
deriving DecidableEq, Repr

/-- The `u16` sum `elements.iter().map(|chunk| chunk.text.len() as u16).sum()`:
each byte length is truncated to `u16` and the sum wraps. -/
def textLengthU16 (elements : List FormattedText) : Nat :=
  elements.foldl (fun acc e => (acc + byteLen e.text % 65536) % 65536) 0

/-- Total (unwrapped) byte length of a span sequence. -/
def totalTextBytes (elements : List FormattedText) : Nat :=
  (elements.map (fun e => byteLen e.text)).sum

/-- `TextDrawer::new` from `src/draw.rs`.  Unlike `Layout::compute` it
performs no margin degradation, uses plain (wrapping) `u16` arithmetic,
and its `match` has no arm for `Alignment::Right` (modelled as `none`). -/
def TextDrawer.new (style : ElementStyle) (elements : List FormattedText)
    (dims : WindowSize) (defaultColors : Colors) : Option TextDrawerState :=
  let textLength := textLengthU16 elements
  match style.alignment with
  | .left margin =>
      some { elements, startColumn := margin,
             lineLength := wrapSub dims.columns (wrapMul2 margin), defaultColors }
  | .center minimumMargin minimumSize =>
      let lineLength :=
        max (min textLength (wrapSub dims.columns (wrapMul2 minimumMargin)))
          minimumSize
      let startColumn :=
        if lineLength > dims.columns then minimumMargin
        else max (wrapSub dims.columns lineLength / 2) minimumMargin
      some { elements, startColumn, lineLength, defaultColors }
  | .right _ => none

/-- The inner `loop` of `TextDrawer::draw`, processing one span's wrap
units.  `lengthSoFar` is the running `u16` counter; the source never
resets it after a wrap.  `fuel` bounds the iteration count: when
`lineLength ≥ 1` every iteration strictly shrinks the remainder, so
`word.length + 1` iterations always suffice; with `lineLength = 0` the
Rust loop itself need not terminate. -/
def drawUnits (defaultColors : Colors) (startColumn lineLength : Nat)
    (fmt : TextFormat) :
    Nat → Nat → List Char → List Char → Option (List Command × Nat)
  | 0, _, _, _ => none
  | fuel + 1, lengthSoFar, chunk, rest =>
      let styled := styleChunk defaultColors fmt chunk
      let lengthSoFar := (lengthSoFar + byteLen styled.content % 65536) % 65536
      let wrapCmds :=
        if lengthSoFar > lineLength then
          [Command.moveDown 1, Command.moveToColumn startColumn]
        else []
      let cmds := wrapCmds ++ [Command.printStyled styled] ++
        applyColorsCmds defaultColors
      if rest.isEmpty then some (cmds, lengthSoFar)
      else
        match truncate lineLength rest with
        | none => none
        | some (chunk, rest) =>
            match drawUnits defaultColors startColumn lineLength fmt fuel
                lengthSoFar chunk rest with
            | none => none
            | some (more, l) => some (cmds ++ more, l)

/-- One iteration of the `for &element in self.elements` loop of
`TextDrawer::draw`: truncate the span's text and run the inner loop. -/
def drawOneElement (defaultColors : Colors) (startColumn lineLength : Nat)
    (lengthSoFar : Nat) (e : FormattedText) : Option (List Command × Nat) :=
  match truncate lineLength e.text with
  | none => none
  | some (chunk, rest) =>
      drawUnits defaultColors startColumn lineLength e.format
        (e.text.length + 1) lengthSoFar chunk rest

/-- The `for` loop of `TextDrawer::draw` over all spans, threading the
never-reset `length_so_far` counter. -/
def drawElementsLoop (defaultColors : Colors) (startColumn lineLength : Nat) :
    Nat → List FormattedText → Option (List Command)
  | _, [] => some []
  | lengthSoFar, e :: es =>
      match drawOneElement defaultColors startColumn lineLength lengthSoFar e with
      | none => none
      | some (cmds, lengthSoFar) =>
          match drawElementsLoop defaultColors startColumn lineLength
              lengthSoFar es with
          | none => none
          | some more => some (cmds ++ more)

/-- `TextDrawer::draw` from `src/draw.rs`: move to the start column, then
draw every span with wrapping. -/
def TextDrawer.draw (td : TextDrawerState) : Option (List Command) :=
  match drawElementsLoop td.defaultColors td.startColumn td.lineLength 0
      td.elements with
  | none => none
  | some cmds => some (Command.moveToColumn td.startColumn :: cmds)

/-- Number of wrap-induced line advances (`MoveDown` commands) in a
command sequence. -/
def countLineAdvances (cmds : List Command) : Nat :=
  (cmds.filter (fun c => match c with
    | Command.moveDown _ => true
    | _ => false)).length

/-! ## Slide model (`src/elements.rs`, declared outside `src/`; shapes as
used by `draw.rs`) -/

/-- `elements::TextChunk`. -/
inductive TextChunk where
  | formatted (t : FormattedText)
  | image (url : List Char)
  | lineBreak
deriving DecidableEq, Repr

/-- `elements::Text`. -/
structure Text where
  chunks : List TextChunk
deriving DecidableEq, Repr

/-- `elements::ListItemType`. -/
inductive ListItemType where
  | unordered
  | orderedParens (number : Nat)
  | orderedPeriod (number : Nat)
deriving DecidableEq, Repr

/-- `elements::ListItem`. -/
structure ListItem where
  depth : Nat
  itemType : ListItemType
  contents : Text
deriving DecidableEq, Repr

/-- `elements::PresentationMetadata`. -/
structure PresentationMetadata where
  title : List Char
  subTitle : Option (List Char)
  author : Option (List Char)
deriving DecidableEq, Repr

/-- `elements::Code`. -/
structure Code where
  contents : List Char
  language : List Char
deriving DecidableEq, Repr

/-- `elements::Element`. -/
inductive Element where
  | presentationMetadata (m : PresentationMetadata)
  | slideTitle (text : Text)
  | heading (text : Text) (level : Nat)
  | paragraph (text : Text)
  | list (items : List ListItem)
  | code (c : Code)
deriving DecidableEq, Repr

/-- `presentation::Slide`. -/
structure Slide where
  elements : List Element
deriving DecidableEq, Repr

/-- `theme::ElementType`: the element kinds that key theme styles in
`draw.rs`. -/
inductive ElementType where
  | presentationTitle
  | presentationSubTitle
  | presentationAuthor
  | slideTitle
  | heading1
  | paragraph
  | list
  | code
deriving DecidableEq, Repr

/-- `theme::AuthorPositioning`. -/
inductive AuthorPositioning where
  | belowTitle
  | pageBottom
deriving DecidableEq, Repr

/-- `theme::SlideTheme` as read by `draw.rs`: global default colors, the
author positioning policy, and a style per element kind. -/
structure SlideTheme where
  colors : Colors
  authorPositioning : AuthorPositioning
  style : ElementType → ElementStyle

/-- A highlighted code line from the external highlighter (§6):
`original` is the raw line text, `formatted` the pre-styled line
including its trailing newline. -/
structure CodeLine where
  original : List Char
  formatted : List Char
deriving DecidableEq, Repr

/-- The ambient collaborators of one slide draw: the theme, the sampled
window size, the external code highlighter, and whether an image resource
loads and draws successfully. -/
structure DrawEnv where
  theme : SlideTheme
  dimensions : WindowSize
  highlight : List Char → List Char → List CodeLine
  imageOk : List Char → Bool

/-! ## Element drawers (`SlideDrawer` methods in `src/draw.rs`) -/

/-- `SlideDrawer::draw_formatted_texts`: empty buffer draws nothing,
otherwise construct a `TextDrawer` and draw. -/
def drawFormattedTexts (env : DrawEnv) (style : ElementStyle)
    (texts : List FormattedText) : Option (List Command) :=
  if texts.isEmpty then some []
  else do
    let td ← TextDrawer.new style texts env.dimensions env.theme.colors
    TextDrawer.draw td

/-- `SlideDrawer::draw_image`: load the resource and delegate to the
media drawer; either step may fail. -/
def drawImageCmds (env : DrawEnv) (url : List Char) : Option (List Command) :=
  if env.imageOk url then some [Command.drawImage url] else none

/-- The chunk loop of `SlideDrawer::draw_text`: buffer formatted chunks,
flush the buffer before an image or an explicit line break, and flush the
remaining buffer at the end. -/
def drawTextLoop (env : DrawEnv) (style : ElementStyle) :
    List TextChunk → List FormattedText → Option (List Command)
  | [], texts => drawFormattedTexts env style texts
  | TextChunk.formatted ft :: rest, texts =>
      drawTextLoop env style rest (texts ++ [ft])
  | TextChunk.image url :: rest, texts => do
      let c1 ← drawFormattedTexts env style texts
      let c2 ← drawImageCmds env url
      let c3 ← drawTextLoop env style rest []
      some (c1 ++ c2 ++ c3)
  | TextChunk.lineBreak :: rest, texts => do
      let c1 ← drawFormattedTexts env style texts
      let c3 ← drawTextLoop env style rest []
      some (c1 ++ [Command.moveToNextLine 1] ++ c3)

/-- `SlideDrawer::draw_text`. -/
def drawText (env : DrawEnv) (text : Text) (parentElement : ElementType) :
    Option (List Command) :=
  drawTextLoop env (env.theme.style parentElement) text.chunks []

/-- The optional-subtitle part of
`SlideDrawer::draw_presentation_metadata`: subtitle text then one line
advance, or nothing. -/
def metadataSubTitleCmds (env : DrawEnv) : Option (List Char) →
    Option (List Command)
  | some t =>
      match drawText env ⟨[TextChunk.formatted (FormattedText.plain t)]⟩
          .presentationSubTitle with
      | none => none
      | some c => some (c ++ [Command.moveToNextLine 1])
  | none => some []

/-- The optional-author part of
`SlideDrawer::draw_presentation_metadata`: position per the theme's
`AuthorPositioning`, then the author text, or nothing. -/
def metadataAuthorCmds (env : DrawEnv) : Option (List Char) →
    Option (List Command)
  | some t =>
      let posCmds := match env.theme.authorPositioning with
        | .belowTitle => [Command.moveToNextLine 3]
        | .pageBottom => [Command.moveToRow env.dimensions.rows]
      match drawText env ⟨[TextChunk.formatted (FormattedText.plain t)]⟩
          .presentationAuthor with
      | none => none
      | some c => some (posCmds ++ c)
  | none => some []

/-- `SlideDrawer::draw_presentation_metadata`: move to the vertical
centre row, draw the bold title, then the optional subtitle and
author. -/
def drawPresentationMetadata (env : DrawEnv) (m : PresentationMetadata) :
    Option (List Command) :=
  match drawText env
      ⟨[TextChunk.formatted
          { text := m.title, format := { bold := true, italics := false, code := false } }]⟩
      .presentationTitle with
  | none => none
  | some c1 =>
      match metadataSubTitleCmds env m.subTitle with
      | none => none
      | some c2 =>
          match metadataAuthorCmds env m.author with
          | none => none
          | some c3 =>
              some (Command.moveToRow (env.dimensions.rows / 2) :: c1 ++
                [Command.moveToNextLine 1] ++ c2 ++ c3)

/-- `SlideDrawer::draw_slide_title`: bold title, then a full-width rule of
the repeated rule character, then blank lines. -/
def drawSlideTitle (env : DrawEnv) (text : Text) : Option (List Command) := do
  let c ← drawText env text .slideTitle
  some ([Command.moveDown 1, Command.setAttributeBold] ++ c ++
    [Command.setAttributeReset, Command.moveToNextLine 2] ++
    applyColorsCmds env.theme.colors ++
    [Command.print (List.replicate env.dimensions.columns '—'),
     Command.moveToNextLine 2])

/-- `SlideDrawer::draw_heading`: bold, level currently ignored. -/
def drawHeading (env : DrawEnv) (text : Text) (_level : Nat) :
    Option (List Command) := do
  let c ← drawText env text .heading1
  some (Command.setAttributeBold :: c ++
    [Command.setAttributeReset, Command.moveToNextLine 2])

/-- `SlideDrawer::draw_paragraph`. -/
def drawParagraph (env : DrawEnv) (text : Text) : Option (List Command) := do
  let c ← drawText env text .paragraph
  some (c ++ [Command.moveToNextLine 2])

/-- `number.to_string()`. -/
def natToChars (n : Nat) : List Char := (Nat.repr n).toList

/-- The marker string built by `SlideDrawer::draw_list_item`: a
depth-scaled indent, then a depth-tiered bullet or an ordered marker, then
one trailing space. -/
def listItemMarker (item : ListItem) : List Char :=
  let padding := List.replicate ((item.depth + 1) * 2) ' '
  let p := match item.itemType with
    | .unordered =>
        let delimiter := match item.depth with
          | 0 => '•'
          | 1 => '◦'
          | _ => '▪'
        padding ++ [delimiter]
    | .orderedParens number => padding ++ natToChars number ++ (") ").toList
    | .orderedPeriod number => padding ++ natToChars number ++ (". ").toList
  p ++ [' ']

/-- `SlideDrawer::draw_list_item`. -/
def drawListItem (env : DrawEnv) (item : ListItem) : Option (List Command) := do
  let text : Text :=
    ⟨TextChunk.formatted (FormattedText.plain (listItemMarker item)) ::
      item.contents.chunks⟩
  let c ← drawText env text .list
  some (c ++ [Command.moveToNextLine 1])

/-- The item loop of `SlideDrawer::draw_list`. -/
def drawListItems (env : DrawEnv) : List ListItem → Option (List Command)
  | [] => some []
  | i :: is => do
      let c ← drawListItem env i
      let cs ← drawListItems env is
      some (c ++ cs)

/-- `SlideDrawer::draw_list`. -/
def drawList (env : DrawEnv) (items : List ListItem) : Option (List Command) := do
  let c ← drawListItems env items
  some (c ++ [Command.moveDown 2])

/-! ## Code blocks (`SlideDrawer::draw_code`) -/

/-- Split a string on `'\n'` segments (helper for `str::lines`). -/
def splitOnNewline : List Char → List (List Char)
  | [] => [[]]
  | c :: cs =>
      if c = '\n' then [] :: splitOnNewline cs
      else
        match splitOnNewline cs with
        | [] => [[c]]
        | l :: ls => (c :: l) :: ls

/-- Strip one trailing carriage return (helper for `str::lines`). -/
def stripTrailingCR (l : List Char) : List Char :=
  if l.getLast? = some '\r' then l.dropLast else l

/-- `str::lines`: split at `'\n'` (or `"\r\n"`), the final line ending
optional. -/
def rustLines (s : List Char) : List (List Char) :=
  let segs := splitOnNewline s
  let segs := if segs.getLast? = some [] then segs.dropLast else segs
  segs.map stripTrailingCR

/-- `code.contents.lines().map(|line| line.len()).max().unwrap_or(0)`. -/
def maxOriginalLineLen (contents : List Char) : Nat :=
  ((rustLines contents).map byteLen).foldr max 0

/-- The `start_column` computation of `SlideDrawer::draw_code`.  Like
`TextDrawer::new`, its `match` has no arm for `Alignment::Right`
(modelled as `none`), and it performs no margin degradation; the plain
`u16` subtraction wraps and the `usize → u16` cast truncates. -/
def codeStartColumn (env : DrawEnv) (code : Code) : Option Nat :=
  match (env.theme.style .code).alignment with
  | .left margin => some margin
  | .center minimumMargin minimumSize =>
      let maxLineLength := max (maxOriginalLineLen code.contents) minimumSize
      some (max (wrapSub env.dimensions.columns (maxLineLength % 65536) / 2)
        minimumMargin)
  | .right _ => none

/-- `(self.dimensions.columns - start_column * 2) as usize`: the code
block's content width. -/
def codeMaxLineLength (columns startColumn : Nat) : Nat :=
  wrapSub columns (wrapMul2 startColumn)

/-- One emitted code line: pop the trailing newline off the pre-styled
line, right-pad with spaces to the block width (a saturating
subtraction), then re-append the newline. -/
def padCodeLine (maxLineLength : Nat) (cl : CodeLine) : List Char :=
  cl.formatted.dropLast ++
    List.replicate (maxLineLength - byteLen cl.original) ' ' ++ ['\n']

/-- Rendered width in character cells of an emitted code line.  By the
highlighter contract (§6) `formatted` is `original` wrapped in zero-width
style escapes plus a trailing newline, so the visible width of
`formatted` without its newline is the byte length of `original`; the
drawer appends `maxLineLength − byteLen original` padding spaces. -/
def emittedCodeWidth (maxLineLength : Nat) (cl : CodeLine) : Nat :=
  byteLen cl.original + (maxLineLength - byteLen cl.original)

/-- `SlideDrawer::draw_code`. -/
def drawCode (env : DrawEnv) (code : Code) : Option (List Command) := do
  let startColumn ← codeStartColumn env code
  let maxLineLength := codeMaxLineLength env.dimensions.columns startColumn
  let lineCmds :=
    ((env.highlight code.contents code.language).map (fun cl =>
      [Command.print (padCodeLine maxLineLength cl),
       Command.moveToColumn startColumn])).flatten
  some (Command.moveToColumn startColumn :: lineCmds ++ [Command.moveDown 1])

/-! ## Slide drawer (`SlideDrawer::draw_slide`) -/

/-- `SlideDrawer::draw_element`: the exhaustive dispatch over element
kinds. -/
def drawElement (env : DrawEnv) : Element → Option (List Command)
  | .presentationMetadata m => drawPresentationMetadata env m
  | .slideTitle text => drawSlideTitle env text
  | .heading text level => drawHeading env text level
  | .paragraph text => drawParagraph env text
  | .list items => drawList env items
  | .code c => drawCode env c

/-- The element loop of `SlideDrawer::draw_slide`: re-apply the theme's
default colors before each element, then draw it. -/
def drawSlideElements (env : DrawEnv) : List Element → Option (List Command)
  | [] => some []
  | e :: es => do
      let c ← drawElement env e
      let cs ← drawSlideElements env es
      some (applyColorsCmds env.theme.colors ++ c ++ cs)

/-- `SlideDrawer::draw_slide`: apply theme colors, clear the screen, move
home, draw every element (re-applying colors first), then flush once. -/
def SlideDrawer.drawSlide (env : DrawEnv) (slide : Slide) :
    Option (List Command) := do
  let body ← drawSlideElements env slide.elements
  some (applyColorsCmds env.theme.colors ++
    [Command.clearAll, Command.moveTo 0 0] ++ body ++ [Command.flush])

/-! ## Terminal session guard (`Drawer`) -/

/-- `dimensions.rows -= 3` in `Drawer::draw_slide`: an unchecked `u16`
subtraction reserving the footer rows.  Underflow is a program error in
Rust (a panic under debug assertions), modelled as `none`. -/
def footerAdjustedRows (rows : Nat) : Option Nat :=
  if rows < 3 then none else some (rows - 3)

/-- `Drawer::draw_slide`: sample the window size, reserve the 3 footer
rows, and hand off to the slide drawer. -/
def Drawer.drawSlide (env : DrawEnv) (slide : Slide) : Option (List Command) := do
  let rows ← footerAdjustedRows env.dimensions.rows
  SlideDrawer.drawSlide
    { env with dimensions := { env.dimensions with rows } } slide

/-- Direct terminal-mode actions taken by the session guard. -/
inductive TermAction where
  | enableRawMode
  | queueCursorHide
  | queueCursorShow
  | disableRawMode
deriving DecidableEq, Repr

/-- The error taxonomy of a slide draw (`DrawSlideError`). -/
inductive DrawFailure where
  | io
  | other
deriving DecidableEq, Repr

/-- `Drop for Drawer`: `let _ = self.handle.queue(cursor::Show); let _ =
disable_raw_mode();` — both restoration steps are issued unconditionally
and their results are discarded, so teardown itself never raises.  The
two flags inject failures into the respective steps. -/
def Drawer.drop (showCursorFails disableRawFails : Bool) :
    List TermAction × Except Unit Unit :=
  let step1 : List TermAction × Except Unit Unit :=
    ([TermAction.queueCursorShow],
     if showCursorFails then Except.error () else Except.ok ())
  let step2 : List TermAction × Except Unit Unit :=
    ([TermAction.disableRawMode],
     if disableRawFails then Except.error () else Except.ok ())
  (step1.1 ++ step2.1, Except.ok ())

/-- One drawer session: `Drawer::new` (enable raw mode, hide the cursor),
a body returning `bodyResult` (possibly an error), then `Drop for Drawer`,
which Rust runs on every exit path — normal return or error unwinding.
The session's result is the body's result; the teardown's own outcome is
discarded by the `Drop` implementation. -/
def runDrawerSession (bodyActions : List TermAction)
    (bodyResult : Except DrawFailure Unit)
    (showCursorFails disableRawFails : Bool) :
    List TermAction × Except DrawFailure Unit :=
  let setup := [TermAction.enableRawMode, TermAction.queueCursorHide]
  let teardown := Drawer.drop showCursorFails disableRawFails
  (setup ++ bodyActions ++ teardown.1, bodyResult)

/-! ## Satisfiability side conditions and concrete fixtures -/

/-- The alignment's margin requirements fit the window without `u16`
saturation or wrap-around (the regime in which `draw.rs` duplicates
`Layout::compute` faithfully). -/
def alignmentSatisfiable (a : Alignment) (columns : Nat) : Prop :=
  match a with
  | .left m => 2 * m ≤ columns
  | .center mm ms => 2 * mm ≤ columns ∧ ms + 2 * mm ≤ columns
  | .right _ => False

instance (a : Alignment) (columns : Nat) :
    Decidable (alignmentSatisfiable a columns) := by
  unfold alignmentSatisfiable
  cases a <;> infer_instance

/-- A theme with no default colors. -/
def sampleColors : Colors := { foreground := none, background := none, code := none }

/-- A minimal theme: no colors, author below title, every element
left-aligned with no margin. -/
def plainTheme : SlideTheme :=
  { colors := sampleColors, authorPositioning := .belowTitle,
    style := fun _ => { alignment := .left 0 } }

/-- A minimal draw environment on a 100×24 window whose highlighter
returns each line unstyled (plus its trailing newline). -/
def plainEnv : DrawEnv :=
  { theme := plainTheme, dimensions := { rows := 24, columns := 100 },
    highlight := fun contents _ =>
      (rustLines contents).map (fun l => { original := l, formatted := l ++ ['\n'] }),
    imageOk := fun _ => true }

/-- The same environment on a terminal reporting only 2 rows. -/
def shortEnv : DrawEnv :=
  { plainEnv with dimensions := { rows := 2, columns := 100 } }

/-! # Theorems

General lemmas about the embedded arithmetic and string operations, then
one theorem per specification claim. -/

theorem wrapSub_eq_sub {a b : Nat} (hba : b ≤ a) (ha : a < 65536) :
    wrapSub a b = a - b := by
  unfold wrapSub
  have h1 : a + 65536 - b = a - b + 65536 := by omega
  rw [h1, Nat.add_mod_right, Nat.mod_eq_of_lt (by omega)]

theorem satMul2_eq {m : Nat} (h : 2 * m ≤ 65535) : satMul2 m = 2 * m := by
  unfold satMul2 u16Max; omega

theorem satAdd_eq {a b : Nat} (h : a + b ≤ 65535) : satAdd a b = a + b := by
  unfold satAdd u16Max; omega

theorem wrapMul2_eq {m : Nat} (h : 2 * m < 65536) : wrapMul2 m = 2 * m := by
  unfold wrapMul2; exact Nat.mod_eq_of_lt h

theorem layout_left_eval (m : Nat) (dims : WindowSize) (tl : Nat)
    (hc : dims.columns ≤ 65535) (hm : 2 * m ≤ dims.columns) :
    Layout.compute (.left m) dims tl =
      { startColumn := m, maxLineLength := dims.columns - 2 * m } := by
  unfold Layout.compute fitToColumns
  dsimp only
  unfold wrapSub satMul2 u16Max
  rw [Positioning.mk.injEq]
  refine ⟨?_, ?_⟩ <;> split_ifs <;> omega

set_option maxHeartbeats 800000 in
theorem layout_center_eval (mm ms : Nat) (dims : WindowSize) (tl : Nat)
    (hc : dims.columns ≤ 65535) (h1 : 2 * mm ≤ dims.columns)
    (h2 : ms + 2 * mm ≤ dims.columns) :
    Layout.compute (.center mm ms) dims tl =
      { maxLineLength := max (min tl (dims.columns - 2 * mm)) ms,
        startColumn :=
          max ((dims.columns - max (min tl (dims.columns - 2 * mm)) ms) / 2) mm } := by
  unfold Layout.compute fitToColumns
  dsimp only
  unfold wrapSub satMul2 satAdd u16Max
  rw [Positioning.mk.injEq]
  refine ⟨?_, ?_⟩ <;> split_ifs <;> omega

theorem textLengthU16_aux (es : List FormattedText) (acc : Nat)
    (h : acc + totalTextBytes es ≤ 65535) :
    es.foldl (fun a e => (a + byteLen e.text % 65536) % 65536) acc
      = acc + totalTextBytes es := by
  induction es generalizing acc with
  | nil => simp [totalTextBytes]
  | cons e es ih =>
      have hrest : totalTextBytes (e :: es) = byteLen e.text + totalTextBytes es := by
        simp [totalTextBytes]
      rw [hrest] at h ⊢
      have hb : byteLen e.text % 65536 = byteLen e.text := Nat.mod_eq_of_lt (by omega)
      have hstep : (acc + byteLen e.text % 65536) % 65536 = acc + byteLen e.text := by
        rw [hb]; exact Nat.mod_eq_of_lt (by omega)
      rw [List.foldl_cons, hstep, ih _ (by omega)]
      omega

theorem textLengthU16_eq (elements : List FormattedText)
    (h : totalTextBytes elements ≤ u16Max) :
    textLengthU16 elements = totalTextBytes elements := by
  unfold textLengthU16
  have := textLengthU16_aux elements 0 (by unfold u16Max at h; omega)
  omega

theorem textDrawer_left_eval (m : Nat) (elements : List FormattedText)
    (dims : WindowSize) (colors : Colors)
    (hc : dims.columns ≤ 65535) (hm : 2 * m ≤ dims.columns) :
    TextDrawer.new ⟨.left m⟩ elements dims colors =
      some { elements := elements, startColumn := m,
             lineLength := dims.columns - 2 * m, defaultColors := colors } := by
  unfold TextDrawer.new
  dsimp only
  unfold wrapSub wrapMul2
  rw [Option.some.injEq, TextDrawerState.mk.injEq]
  refine ⟨rfl, rfl, ?_, rfl⟩
  omega

set_option maxHeartbeats 800000 in
theorem textDrawer_center_eval (mm ms : Nat) (elements : List FormattedText)
    (dims : WindowSize) (colors : Colors)
    (hc : dims.columns ≤ 65535) (htl : totalTextBytes elements ≤ 65535)
    (h1 : 2 * mm ≤ dims.columns) (h2 : ms + 2 * mm ≤ dims.columns) :
    TextDrawer.new ⟨.center mm ms⟩ elements dims colors =
      some { elements := elements,
             startColumn :=
               max ((dims.columns -
                 max (min (totalTextBytes elements) (dims.columns - 2 * mm)) ms) / 2) mm,
             lineLength :=
               max (min (totalTextBytes elements) (dims.columns - 2 * mm)) ms,
             defaultColors := colors } := by
  unfold TextDrawer.new
  dsimp only
  rw [textLengthU16_eq elements (by unfold u16Max; omega)]
  unfold wrapSub wrapMul2
  rw [Option.some.injEq, TextDrawerState.mk.injEq]
  refine ⟨rfl, ?_, ?_, rfl⟩ <;>
    first
    | (split_ifs <;> omega)
    | omega

/-! ## C1 — geometry of `Layout::compute` -/

/-- C1 fails as stated: at the maximal `u16` window width 65535 the
saturating products used by the degradation checks saturate to exactly
65535, so an unsatisfiable Center margin/size pair is *not* degraded and
`start_column + max_line_length` exceeds `columns`
(100000 > 65535 here). -/
theorem layout_overflow_counterexample :
    ¬ ((Layout.compute (.center 40000 60000) ⟨0, 65535⟩ 10).startColumn +
        (Layout.compute (.center 40000 60000) ⟨0, 65535⟩ 10).maxLineLength ≤
        (65535 : Nat)) := by decide

/-- C1 (amended): for every alignment variant and content length, and
every window strictly narrower than the maximal `u16` width 65535 (so the
saturating degradation checks are exact), `Layout::compute` returns
`start_column + max_line_length ≤ columns`, degrading margins to zero
when they cannot be satisfied. -/
theorem layout_geometry_within_columns (a : Alignment) (dims : WindowSize)
    (textLength : Nat) (hc : dims.columns < u16Max) (ha : a.fieldsLe) :
    (Layout.compute a dims textLength).startColumn +
      (Layout.compute a dims textLength).maxLineLength ≤ dims.columns := by
  unfold u16Max at hc
  cases a with
  | left m =>
      have hm : m ≤ 65535 := ha
      unfold Layout.compute fitToColumns
      dsimp only
      unfold wrapSub satMul2 u16Max
      split_ifs <;> omega
  | right m =>
      have hm : m ≤ 65535 := ha
      unfold Layout.compute fitToColumns
      dsimp only
      unfold wrapSub satMul2 u16Max
      split_ifs <;> omega
  | center mm ms =>
      obtain ⟨hmm, hms⟩ := ha
      unfold u16Max at hmm hms
      unfold Layout.compute fitToColumns
      dsimp only
      unfold wrapSub satMul2 satAdd u16Max
      split_ifs <;> omega

/-- Witness: C1 (amended) instantiated at the Right alignment with margin
5 on a 100-column window and content length 150. -/
theorem layout_geometry_within_columns_witness :
    (100 : Nat) < u16Max ∧ (Alignment.right 5).fieldsLe ∧
    (Layout.compute (.right 5) ⟨0, 100⟩ 150).startColumn +
      (Layout.compute (.right 5) ⟨0, 100⟩ 150).maxLineLength ≤ 100 :=
  ⟨by decide, by decide,
   layout_geometry_within_columns (.right 5) ⟨0, 100⟩ 150 (by decide) (by decide)⟩

/-! ## C6 — the Center rule against the specification formula -/

/-- C6 fails as stated: the specification's degradation test compares the
mathematical product `minimum_margin*2` with `columns`, but the code
compares the `u16`-saturating product.  At `columns = 65535`,
`minimum_margin = 40000` the spec degrades the margin to 0 and centres at
column 2767, while the code keeps the margin and starts at column
40000. -/
theorem center_spec_formula_counterexample :
    Layout.compute (.center 40000 60000) ⟨0, 65535⟩ 10 ≠
      centerSpecCompute 40000 60000 65535 10 ∧
    Layout.compute (.center 40000 60000) ⟨0, 65535⟩ 10 =
      { maxLineLength := 60000, startColumn := 40000 } ∧
    centerSpecCompute 40000 60000 65535 10 =
      { maxLineLength := 60000, startColumn := 2767 } := by decide

/-- C6 (amended): whenever `minimum_margin*2` and
`minimum_size + minimum_margin*2` fit in `u16` (no saturation) and the
window width is a valid `u16`, the Center rule of `Layout::compute` is
exactly the specification's formula — degrade margin then size, clamp the
content length, centre with floor division — and the three width-100
examples hold. -/
theorem center_matches_spec (mm ms rows columns textLength : Nat)
    (h1 : 2 * mm ≤ u16Max) (h2 : ms + 2 * mm ≤ u16Max) (hc : columns ≤ u16Max) :
    (Layout.compute (.center mm ms) ⟨rows, columns⟩ textLength =
      centerSpecCompute mm ms columns textLength) ∧
    Layout.compute (.center 0 0) ⟨0, 100⟩ 10 =
      { maxLineLength := 10, startColumn := 45 } ∧
    Layout.compute (.center 10 0) ⟨0, 100⟩ 100 =
      { maxLineLength := 80, startColumn := 10 } ∧
    Layout.compute (.center 0 50) ⟨0, 100⟩ 10 =
      { maxLineLength := 50, startColumn := 25 } := by
  refine ⟨?_, by decide, by decide, by decide⟩
  unfold u16Max at h1 h2 hc
  have hsat1 : satMul2 mm = 2 * mm := by unfold satMul2 u16Max; omega
  unfold Layout.compute centerSpecCompute fitToColumns
  dsimp only
  rw [hsat1]
  by_cases hd : 2 * mm > columns
  · rw [if_pos hd]
    have e0 : satMul2 0 = 0 := by unfold satMul2 u16Max; omega
    rw [e0]
    have e1 : satAdd ms 0 = ms := by unfold satAdd u16Max; omega
    rw [e1]
    have e2 : wrapSub columns 0 = columns := by unfold wrapSub; omega
    rw [e2]
    rw [Positioning.mk.injEq]
    constructor
    · split_ifs <;> omega
    · have e3 : ∀ x : Nat, x ≤ columns → wrapSub columns x = columns - x :=
        fun x hx => wrapSub_eq_sub hx (by omega)
      split_ifs with g1 g2 g3 <;>
        first
        | omega
        | (rw [e3 _ (by omega)]; omega)
  · rw [if_neg hd]
    rw [hsat1]
    have e1 : satAdd ms (2 * mm) = ms + 2 * mm := by unfold satAdd u16Max; omega
    rw [e1]
    have e2 : wrapSub columns (2 * mm) = columns - 2 * mm :=
      wrapSub_eq_sub (by omega) (by omega)
    rw [e2]
    rw [Positioning.mk.injEq]
    constructor
    · split_ifs <;> omega
    · have e3 : ∀ x : Nat, x ≤ columns → wrapSub columns x = columns - x :=
        fun x hx => wrapSub_eq_sub hx (by omega)
      split_ifs with g1 g2 g3 <;>
        first
        | omega
        | (rw [e3 _ (by omega)]; omega)

/-- Witness: C6 (amended) instantiated at minimum margin 10, minimum size
0, a 100-column window and content length 100 (the spec's second
example). -/
theorem center_matches_spec_witness :
    2 * 10 ≤ u16Max ∧ 0 + 2 * 10 ≤ u16Max ∧ (100 : Nat) ≤ u16Max ∧
    (Layout.compute (.center 10 0) ⟨0, 100⟩ 100 =
      centerSpecCompute 10 0 100 100) :=
  ⟨by decide, by decide, by decide,
   (center_matches_spec 10 0 0 100 100 (by decide) (by decide) (by decide)).1⟩

/-! ## C5 — `TextDrawer::new` against `Layout::compute` -/

/-- C5 fails as stated: `TextDrawer::new` performs no margin degradation,
so for Left alignment with margin 60 on a 100-column window it places the
text at column 60 with a wrapped-around line length of 65516, while
`Layout::compute` degrades the margin and returns start 0, width 100.
(Its `match` also lacks an arm for `Alignment::Right` entirely.) -/
theorem drawer_layout_mismatch_counterexample :
    (TextDrawer.new ⟨.left 60⟩ [] ⟨0, 100⟩ sampleColors).map
        (fun td => (td.startColumn, td.lineLength)) = some (60, 65516) ∧
    Layout.compute (.left 60) ⟨0, 100⟩ 0 =
      { maxLineLength := 100, startColumn := 0 } ∧
    ((60 : Nat), (65516 : Nat)) ≠ ((0 : Nat), (100 : Nat)) := by decide

/-- C5 (amended): when the alignment is Left or Center with margins and
minimum size actually satisfiable on the window (no degradation needed,
no `u16` overflow) and the spans' total byte length fits in `u16`, the
start column and maximum line width used by `TextDrawer::new` equal those
of `Layout::compute` at the total span text length. -/
theorem textDrawer_matches_layout (style : ElementStyle)
    (elements : List FormattedText) (dims : WindowSize) (colors : Colors)
    (hc : dims.columns ≤ u16Max) (htl : totalTextBytes elements ≤ u16Max)
    (hsat : alignmentSatisfiable style.alignment dims.columns) :
    ∃ td, TextDrawer.new style elements dims colors = some td ∧
      td.startColumn =
        (Layout.compute style.alignment dims (totalTextBytes elements)).startColumn ∧
      td.lineLength =
        (Layout.compute style.alignment dims (totalTextBytes elements)).maxLineLength := by
  obtain ⟨al⟩ := style
  unfold u16Max at hc htl
  cases al with
  | left m =>
      have hm2 : 2 * m ≤ dims.columns := hsat
      rw [textDrawer_left_eval m elements dims colors hc hm2]
      rw [show ({ alignment := Alignment.left m } : ElementStyle).alignment
            = Alignment.left m from rfl,
          layout_left_eval m dims (totalTextBytes elements) hc hm2]
      exact ⟨_, rfl, rfl, rfl⟩
  | right m => exact absurd hsat (by unfold alignmentSatisfiable; simp)
  | center mm ms =>
      obtain ⟨hs1, hs2⟩ : 2 * mm ≤ dims.columns ∧ ms + 2 * mm ≤ dims.columns := hsat
      rw [textDrawer_center_eval mm ms elements dims colors hc htl hs1 hs2]
      rw [show ({ alignment := Alignment.center mm ms } : ElementStyle).alignment
            = Alignment.center mm ms from rfl,
          layout_center_eval mm ms dims (totalTextBytes elements) hc hs1 hs2]
      exact ⟨_, rfl, rfl, rfl⟩

/-- Witness: C5 (amended) instantiated at Center alignment with minimum
margin 10, one 20-byte span, and a 100-column window. -/
theorem textDrawer_matches_layout_witness :
    ∃ td, TextDrawer.new ⟨.center 10 0⟩
        [FormattedText.plain (List.replicate 20 'x')] ⟨0, 100⟩ sampleColors
        = some td ∧
      td.startColumn =
        (Layout.compute (Alignment.center 10 0) ⟨0, 100⟩
          (totalTextBytes [FormattedText.plain (List.replicate 20 'x')])).startColumn ∧
      td.lineLength =
        (Layout.compute (Alignment.center 10 0) ⟨0, 100⟩
          (totalTextBytes [FormattedText.plain (List.replicate 20 'x')])).maxLineLength :=
  textDrawer_matches_layout ⟨.center 10 0⟩
    [FormattedText.plain (List.replicate 20 'x')] ⟨0, 100⟩ sampleColors
    (by decide) (by decide) (by decide)

/-! ## C2 — the wrap counter and line advances -/

theorem truncate_fits {lineLength : Nat} {w : List Char}
    (h : byteLen w ≤ lineLength) : truncate lineLength w = some (w, []) := by
  unfold truncate
  rw [if_pos h]

theorem styleChunk_content (dc : Colors) (fmt : TextFormat) (c : List Char) :
    (styleChunk dc fmt c).content = c := by
  unfold styleChunk
  dsimp only
  split_ifs <;> (try cases dc.code) <;> simp_all

theorem countLineAdvances_append (a b : List Command) :
    countLineAdvances (a ++ b) = countLineAdvances a + countLineAdvances b := by
  unfold countLineAdvances
  rw [List.filter_append, List.length_append]

theorem countLineAdvances_applyColors (c : Colors) :
    countLineAdvances (applyColorsCmds c) = 0 := by
  unfold applyColorsCmds countLineAdvances
  cases c.background <;> cases c.foreground <;> simp

theorem applyColors_filter_moveDown (dc : Colors) :
    List.filter (fun c => match c with
      | Command.moveDown _ => true
      | _ => false) (applyColorsCmds dc) = [] := by
  unfold applyColorsCmds
  cases dc.background <;> cases dc.foreground <;> simp

theorem drawLoop_no_advance (dc : Colors) (sc ll : Nat) (es : List FormattedText)
    (lsf : Nat) (hll : ll ≤ 65535) (h : lsf + totalTextBytes es ≤ ll) :
    ∃ cmds, drawElementsLoop dc sc ll lsf es = some cmds ∧
      countLineAdvances cmds = 0 := by
  induction es generalizing lsf with
  | nil => exact ⟨[], rfl, rfl⟩
  | cons e es ih =>
      have hbe : byteLen e.text ≤ ll - lsf := by
        unfold totalTextBytes at h; simp at h; omega
      have htot : totalTextBytes (e :: es) = byteLen e.text + totalTextBytes es := by
        simp [totalTextBytes]
      have hmod1 : byteLen e.text % 65536 = byteLen e.text :=
        Nat.mod_eq_of_lt (by omega)
      have hmod2 : (lsf + byteLen e.text) % 65536 = lsf + byteLen e.text :=
        Nat.mod_eq_of_lt (by omega)
      obtain ⟨more, hmore, hcount⟩ := ih (lsf + byteLen e.text) (by omega)
      refine ⟨[Command.printStyled (styleChunk dc e.format e.text)] ++
        applyColorsCmds dc ++ more, ?_, ?_⟩
      · unfold drawElementsLoop drawOneElement
        rw [truncate_fits (by omega)]
        simp only [drawUnits, styleChunk_content, hmod1, hmod2, List.isEmpty_nil,
          if_true]
        rw [if_neg (by omega)]
        simp only [List.nil_append]
        rw [hmore]
      · rw [countLineAdvances_append, countLineAdvances_append,
          countLineAdvances_applyColors, hcount]
        rfl

theorem truncate_ne_nil_of_rest {L : Nat} {t chunk rest : List Char}
    (ht : truncate L t = some (chunk, rest)) (hr : rest ≠ []) : t ≠ [] := by
  intro h0
  subst h0
  rw [truncate_fits (by simp [byteLen])] at ht
  simp at ht
  exact hr ht.2

theorem drawOne_one_advance (dc : Colors) (sc ll : Nat) (t : List Char)
    (fmt : TextFormat) (chunk rest : List Char)
    (ht : truncate ll t = some (chunk, rest))
    (hrne : rest ≠ [])
    (hc1 : byteLen chunk ≤ ll) (hc2 : byteLen rest ≤ ll)
    (hover : ll < byteLen chunk + byteLen rest)
    (hsum : byteLen chunk + byteLen rest ≤ 65535) :
    ∃ cmds,
      TextDrawer.draw
        (TextDrawerState.mk [FormattedText.mk t fmt] sc ll dc) = some cmds ∧
      countLineAdvances cmds = 1 := by
  have hll : ll ≤ 65535 := by omega
  have htne : t ≠ [] := truncate_ne_nil_of_rest ht hrne
  obtain ⟨n, hn⟩ : ∃ n, t.length = n + 1 := by
    cases t with
    | nil => exact absurd rfl htne
    | cons a as => exact ⟨as.length, by simp⟩
  have hmodc : byteLen chunk % 65536 = byteLen chunk := Nat.mod_eq_of_lt (by omega)
  have hmodc2 : (0 + byteLen chunk) % 65536 = byteLen chunk := by
    rw [Nat.zero_add]; exact Nat.mod_eq_of_lt (by omega)
  have hmodr : byteLen rest % 65536 = byteLen rest := Nat.mod_eq_of_lt (by omega)
  have hmodr2 : (byteLen chunk + byteLen rest) % 65536 = byteLen chunk + byteLen rest :=
    Nat.mod_eq_of_lt (by omega)
  have hrne' : rest.isEmpty = false := by
    cases rest
    · exact absurd rfl hrne
    · rfl
  have hw1 : ¬ (byteLen chunk > ll) := by omega
  have hw2 : byteLen chunk + byteLen rest > ll := by omega
  simp only [TextDrawer.draw, drawElementsLoop, drawOneElement, ht, hn,
    drawUnits, styleChunk_content, hmodc, hmodc2, hmodr, hmodr2, hrne',
    truncate_fits hc2, if_neg hw1, if_pos hw2, Nat.zero_add,
    List.isEmpty_nil, List.isEmpty_cons, Bool.false_eq_true, if_false,
    if_true, ite_false, ite_true]
  refine ⟨_, rfl, ?_⟩
  simp [countLineAdvances, applyColors_filter_moveDown]

/-- C2 fails as stated: `length_so_far` is *never* reset after a wrap
(draw.rs has no reset in the `if length_so_far > self.line_length` arm),
so once the counter crosses the budget every later unit wraps again.
Spans of byte lengths 5, 6, 1 on a 10-column line (total 12, one
word-boundary over the budget) produce two `MoveDown` advances, not
exactly one. -/
theorem wrap_counter_never_reset_counterexample :
    totalTextBytes [FormattedText.plain ('a' :: List.replicate 4 'a'),
      FormattedText.plain (List.replicate 6 'b'),
      FormattedText.plain ['c']] = 12 ∧
    (TextDrawer.draw (TextDrawerState.mk
        [FormattedText.plain ('a' :: List.replicate 4 'a'),
         FormattedText.plain (List.replicate 6 'b'),
         FormattedText.plain ['c']] 0 10 sampleColors)).map countLineAdvances
      = some 2 := by decide

/-- C2 (amended): the running counter `length_so_far` is never reset on a
wrap.  Consequently (a) a span sequence whose combined byte length fits
within `max_line_length` still draws with zero line advances, and (b) a
single span just over the budget — its wrap splits it into a first chunk
and a remainder that fits on one line while together they exceed the
budget — draws with exactly one line advance at the word boundary chosen
by `truncate`; but a multi-span sequence can advance more than once. -/
theorem wrap_advances_characterization :
    (∀ td : TextDrawerState, td.lineLength ≤ u16Max →
        totalTextBytes td.elements ≤ td.lineLength →
        ∃ cmds, TextDrawer.draw td = some cmds ∧ countLineAdvances cmds = 0) ∧
    (∀ (dc : Colors) (sc ll : Nat) (t : List Char) (fmt : TextFormat)
        (chunk rest : List Char),
        truncate ll t = some (chunk, rest) → rest ≠ [] →
        byteLen chunk ≤ ll → byteLen rest ≤ ll →
        ll < byteLen chunk + byteLen rest →
        byteLen chunk + byteLen rest ≤ u16Max →
        ∃ cmds,
          TextDrawer.draw (TextDrawerState.mk [FormattedText.mk t fmt] sc ll dc)
            = some cmds ∧ countLineAdvances cmds = 1) := by
  constructor
  · intro td h1 h2
    unfold u16Max at h1
    obtain ⟨cmds, hcl, hc0⟩ := drawLoop_no_advance td.defaultColors
      td.startColumn td.lineLength td.elements 0 h1 (by omega)
    refine ⟨Command.moveToColumn td.startColumn :: cmds, ?_, ?_⟩
    · unfold TextDrawer.draw
      rw [hcl]
    · unfold countLineAdvances at hc0 ⊢
      simpa using hc0
  · intro dc sc ll t fmt chunk rest h1 h2 h3 h4 h5 h6
    unfold u16Max at h6
    exact drawOne_one_advance dc sc ll t fmt chunk rest h1 h2 h3 h4 h5 h6

/-- Witness: C2 (amended), part (a) at two spans totalling 8 bytes on a
10-column line, part (b) at the single span "aaaa bbbb cc" whose wrap
splits after "aaaa bbbb". -/
theorem wrap_advances_characterization_witness :
    (∃ cmds, TextDrawer.draw (TextDrawerState.mk
        [FormattedText.plain (List.replicate 4 'a'),
         FormattedText.plain (List.replicate 4 'b')] 0 10 sampleColors)
      = some cmds ∧ countLineAdvances cmds = 0) ∧
    (∃ cmds, TextDrawer.draw (TextDrawerState.mk
        [FormattedText.mk ("aaaa bbbb cc".toList)
          (TextFormat.mk false false false)] 0 10 sampleColors)
      = some cmds ∧ countLineAdvances cmds = 1) :=
  ⟨wrap_advances_characterization.1
      (TextDrawerState.mk
        [FormattedText.plain (List.replicate 4 'a'),
         FormattedText.plain (List.replicate 4 'b')] 0 10 sampleColors)
      (by decide) (by decide),
   wrap_advances_characterization.2 sampleColors 0 10 ("aaaa bbbb cc".toList)
      (TextFormat.mk false false false) ("aaaa bbbb".toList) ("cc".toList)
      (by decide) (by decide) (by decide) (by decide) (by decide) (by decide)⟩

/-! ## C3 — where `truncate` splits -/

theorem byteLen_cons (c : Char) (cs : List Char) :
    byteLen (c :: cs) = charBytes c + byteLen cs := by
  simp [byteLen]

theorem byteLen_append (a b : List Char) :
    byteLen (a ++ b) = byteLen a + byteLen b := by
  simp [byteLen]

theorem charBytes_pos (c : Char) : 1 ≤ charBytes c := by
  unfold charBytes
  split_ifs <;> omega

theorem takeBytes_some (w : List Char) (n : Nat) (t : List Char)
    (h : takeBytes w n = some t) : byteLen t = n ∧ ∃ u, w = t ++ u := by
  induction w generalizing n t with
  | nil =>
      cases n with
      | zero =>
          unfold takeBytes at h
          simp at h
          subst h
          exact ⟨rfl, [], rfl⟩
      | succ m => simp [takeBytes] at h
  | cons c cs ih =>
      cases n with
      | zero =>
          unfold takeBytes at h
          simp at h
          subst h
          exact ⟨rfl, c :: cs, rfl⟩
      | succ m =>
          unfold takeBytes at h
          split_ifs at h with hcb
          · cases ht : takeBytes cs (m + 1 - charBytes c) with
            | none => rw [ht] at h; simp at h
            | some t' =>
                rw [ht] at h
                simp at h
                obtain ⟨hb, u, hu⟩ := ih _ _ ht
                subst h
                refine ⟨?_, u, by simp [hu]⟩
                have hbc : byteLen (c :: t') = charBytes c + byteLen t' :=
                  byteLen_cons c t'
                omega

theorem rsplitOnceSpace_none_iff (s : List Char) :
    rsplitOnceSpace s = none ↔ ' ' ∉ s := by
  induction s with
  | nil => simp [rsplitOnceSpace]
  | cons c cs ih =>
      unfold rsplitOnceSpace
      cases h : rsplitOnceSpace cs with
      | some p =>
          have hmem : ' ' ∈ cs := by
            by_contra hc
            have h2 := ih.mpr hc
            rw [h] at h2
            exact Option.noConfusion h2
          simp [hmem]
      | none =>
          have hcs : ' ' ∉ cs := ih.mp h
          by_cases hsp : c = ' '
          · subst hsp
            simp
          · simp [hsp, hcs]
            intro hx
            exact absurd hx.symm hsp

theorem rsplitOnceSpace_some (s : List Char) (b a : List Char)
    (h : rsplitOnceSpace s = some (b, a)) :
    s = b ++ ' ' :: a ∧ ' ' ∉ a := by
  induction s generalizing b a with
  | nil => simp [rsplitOnceSpace] at h
  | cons c cs ih =>
      unfold rsplitOnceSpace at h
      cases hr : rsplitOnceSpace cs with
      | some p =>
          rw [hr] at h
          obtain ⟨b', a'⟩ := p
          simp at h
          obtain ⟨hb, ha⟩ := h
          obtain ⟨h1, h2⟩ := ih b' a' hr
          subst hb
          subst ha
          exact ⟨by rw [h1]; rfl, h2⟩
      | none =>
          rw [hr] at h
          split_ifs at h with hsp
          · simp at h
            obtain ⟨hb, ha⟩ := h
            subst hb
            subst ha
            have hceq : c = ' ' := by simpa using hsp
            refine ⟨by simp [hceq], ?_⟩
            exact (rsplitOnceSpace_none_iff _).mp hr

/-- C3 fails as stated: the split searches only for a space
(`rsplit_once(' ')`), not for any whitespace.  With a tab at byte 2 and
no space, a whitespace boundary exists within the 10-byte limit, yet the
code hard-cuts at byte 10 instead of splitting at the tab — the returned
chunk still contains the tab and is not the prefix `"ab"` ending at the
whitespace boundary. -/
theorem truncate_space_only_counterexample :
    truncate 10 ("ab\tcdefghijk".toList) =
      some ("ab\tcdefghi".toList, "jk".toList) ∧
    '\t' ∈ ("ab\tcdefghi".toList) ∧ isRustWhitespace '\t' = true ∧
    ("ab\tcdefghi".toList ≠ "ab".toList) := by decide

/-- C3 (amended): for every input whose byte length exceeds the limit and
whose first `lineLength` bytes form a character-boundary slice
`targetChunk`, `truncate` returns a prefix `chunk` of the input together
with the whitespace-trimmed remainder of everything after it (so no
non-whitespace text is dropped), with `byteLen chunk ≤ lineLength`; when
`targetChunk` contains a *space* the split is at the last space inside the
limit, and when it contains no space the cut is hard, exactly at the
width boundary. -/
theorem truncate_split_characterization (lineLength : Nat)
    (word targetChunk : List Char)
    (hlong : lineLength < byteLen word)
    (htake : takeBytes word lineLength = some targetChunk) :
    ∃ chunk rest, truncate lineLength word = some (chunk, rest) ∧
      word.take chunk.length = chunk ∧
      rest = trimChars (word.drop chunk.length) ∧
      byteLen chunk ≤ lineLength ∧
      (' ' ∈ targetChunk →
        ∃ tail, targetChunk = chunk ++ ' ' :: tail ∧ ' ' ∉ tail) ∧
      (' ' ∉ targetChunk → chunk = targetChunk ∧ byteLen chunk = lineLength) := by
  obtain ⟨hblen, u, hu⟩ := takeBytes_some word lineLength targetChunk htake
  unfold truncate
  rw [if_neg (by omega), htake]
  dsimp only
  cases hr : rsplitOnceSpace targetChunk with
  | none =>
      have hns : ' ' ∉ targetChunk := (rsplitOnceSpace_none_iff _).mp hr
      refine ⟨targetChunk, _, rfl, ?_, rfl, by omega, ?_, ?_⟩
      · rw [hu]
        exact List.take_left targetChunk u
      · intro hmem
        exact absurd hmem hns
      · intro _
        exact ⟨rfl, hblen⟩
  | some p =>
      obtain ⟨b, a⟩ := p
      obtain ⟨hsplit, hna⟩ := rsplitOnceSpace_some targetChunk b a hr
      have hlenb : byteLen targetChunk = byteLen b + 1 + byteLen a := by
        rw [hsplit, byteLen_append, byteLen_cons]
        have : charBytes ' ' = 1 := by decide
        omega
      refine ⟨b, _, rfl, ?_, rfl, by omega, ?_, ?_⟩
      · rw [hu, hsplit, List.append_assoc]
        exact List.take_left b (' ' :: a ++ u)
      · intro _
        exact ⟨a, hsplit, hna⟩
      · intro hns
        exfalso
        apply hns
        rw [hsplit]
        exact List.mem_append.mpr (Or.inr (List.mem_cons_self _ _))

/-- Witness: C3 (amended) at `"hello world friend"` with limit 10, whose
first 10 bytes are `"hello worl"`; the split lands after `"hello"`. -/
theorem truncate_split_characterization_witness :
    ∃ chunk rest,
      truncate 10 ("hello world friend".toList) = some (chunk, rest) ∧
      ("hello world friend".toList).take chunk.length = chunk ∧
      rest = trimChars (("hello world friend".toList).drop chunk.length) ∧
      byteLen chunk ≤ 10 ∧
      (' ' ∈ ("hello worl".toList) →
        ∃ tail, "hello worl".toList = chunk ++ ' ' :: tail ∧ ' ' ∉ tail) ∧
      (' ' ∉ ("hello worl".toList) →
        chunk = "hello worl".toList ∧ byteLen chunk = 10) :=
  truncate_split_characterization 10 ("hello world friend".toList)
    ("hello worl".toList) (by decide) (by decide)

/-! ## C9 — byte-indexed slicing and character boundaries -/

theorem isCharBoundary_of_takeBytes (w : List Char) (n : Nat) (t : List Char)
    (h : takeBytes w n = some t) : isCharBoundary w n = true := by
  obtain ⟨hb, u, hu⟩ := takeBytes_some w n t h
  unfold isCharBoundary
  rw [List.any_eq_true]
  refine ⟨t.length, ?_, ?_⟩
  · rw [List.mem_range]
    have : t.length ≤ w.length := by rw [hu]; simp
    omega
  · have htake : w.take t.length = t := by
      rw [hu]
      exact List.take_left t u
    rw [htake, hb]
    simp

theorem takeBytes_none_of_not_boundary (w : List Char) (n : Nat)
    (h : isCharBoundary w n = false) : takeBytes w n = none := by
  cases ht : takeBytes w n with
  | none => rfl
  | some t =>
      rw [isCharBoundary_of_takeBytes w n t ht] at h
      exact Bool.noConfusion h

theorem takeBytes_ascii (w : List Char) (n : Nat)
    (ha : ∀ c ∈ w, charBytes c = 1) (h : n ≤ byteLen w) :
    (takeBytes w n).isSome = true := by
  induction w generalizing n with
  | nil =>
      have hz : byteLen ([] : List Char) = 0 := rfl
      have hn0 : n = 0 := by omega
      subst hn0
      rfl
  | cons c cs ih =>
      cases n with
      | zero => rfl
      | succ m =>
          have hc1 : charBytes c = 1 := ha c (List.mem_cons_self _ _)
          have hih := ih (m + 1 - charBytes c)
            (fun x hx => ha x (List.mem_cons_of_mem c hx))
            (show m + 1 - charBytes c ≤ byteLen cs by
              rw [byteLen_cons, hc1] at h
              omega)
          unfold takeBytes
          rw [if_pos (by omega)]
          cases hts : takeBytes cs (m + 1 - charBytes c) with
          | none => rw [hts] at hih; exact Bool.noConfusion hih
          | some t => rfl

/-- C9: text-width accounting is in bytes, and `truncate` byte-slices at
`line_length`.  (a) Whenever the limit is strictly inside the input and
is not a character boundary (a multi-byte character straddles it), the
slice `&word[0..line_length]` panics — modelled as `truncate = none`; (b)
for pure-ASCII inputs (every character one byte wide) `truncate` is
total.  Wrapping is thus total only under the unstated ASCII-like
precondition. -/
theorem byte_truncation_partiality :
    (∀ (lineLength : Nat) (word : List Char), lineLength < byteLen word →
        isCharBoundary word lineLength = false →
        truncate lineLength word = none) ∧
    (∀ (lineLength : Nat) (word : List Char), (∀ c ∈ word, charBytes c = 1) →
        (truncate lineLength word).isSome = true) := by
  constructor
  · intro L w hl hb
    unfold truncate
    rw [if_neg (by omega), takeBytes_none_of_not_boundary w L hb]
  · intro L w ha
    by_cases hfit : byteLen w ≤ L
    · rw [truncate_fits hfit]
      rfl
    · unfold truncate
      rw [if_neg hfit]
      have hsome := takeBytes_ascii w L ha (by omega)
      cases ht : takeBytes w L with
      | none => rw [ht] at hsome; exact Bool.noConfusion hsome
      | some t => rfl

/-- Witness: C9 at `"aé"` (3 bytes, limit 2 falls inside `'é'`) for the
panic case, and at the ASCII `"abc"` with limit 2 for totality. -/
theorem byte_truncation_partiality_witness :
    truncate 2 ("aé".toList) = none ∧
    (truncate 2 ("abc".toList)).isSome = true :=
  ⟨byte_truncation_partiality.1 2 ("aé".toList) (by decide) (by decide),
   byte_truncation_partiality.2 2 ("abc".toList) (by decide)⟩


/-! ## C4 — code block padding -/

/-- C4 fails as stated: `draw_code` pads every line to the block width
`columns − 2·start_column`, not to the longest original line.  With Left
alignment at margin 0 on a 100-column window, the single 2-byte line
`"ab"` is emitted at rendered width 100, not 2. -/
theorem code_padding_counterexample :
    drawCode plainEnv { contents := "ab".toList, language := "rust".toList } =
      some [Command.moveToColumn 0,
        Command.print (padCodeLine 100
          { original := "ab".toList, formatted := "ab\n".toList }),
        Command.moveToColumn 0, Command.moveDown 1] ∧
    emittedCodeWidth 100 { original := "ab".toList, formatted := "ab\n".toList }
      = 100 ∧
    maxOriginalLineLen ("ab".toList) = 2 ∧ (100 : Nat) ≠ 2 := by decide

/-- C4 (amended): for every code block whose alignment is handled (Left
or Center) and whose original lines all fit the block's content width
`columns − 2·start_column`, every emitted line has identical rendered
width equal to that content width — the block is a uniform rectangle —
and padding never truncates the pre-styled content: each emitted line
begins with the full `formatted` text minus only its popped trailing
newline. -/
theorem code_block_uniform_width (env : DrawEnv) (code : Code)
    (startColumn : Nat)
    (hsc : codeStartColumn env code = some startColumn)
    (hfit : ∀ cl ∈ env.highlight code.contents code.language,
      byteLen cl.original ≤ codeMaxLineLength env.dimensions.columns startColumn) :
    (drawCode env code).isSome = true ∧
    ∀ cl ∈ env.highlight code.contents code.language,
      emittedCodeWidth (codeMaxLineLength env.dimensions.columns startColumn) cl
        = codeMaxLineLength env.dimensions.columns startColumn ∧
      (padCodeLine (codeMaxLineLength env.dimensions.columns startColumn) cl).take
          cl.formatted.dropLast.length = cl.formatted.dropLast := by
  constructor
  · unfold drawCode
    rw [hsc]
    rfl
  · intro cl hcl
    constructor
    · have := hfit cl hcl
      unfold emittedCodeWidth
      omega
    · unfold padCodeLine
      rw [List.append_assoc]
      exact List.take_left cl.formatted.dropLast _

/-- Witness: C4 (amended) at the one-line block `"ab"` in `plainEnv`
(Left margin 0, 100 columns): the emitted width is the block width 100
for every highlighted line. -/
theorem code_block_uniform_width_witness :
    (drawCode plainEnv { contents := "ab".toList, language := "rust".toList }).isSome
      = true ∧
    ∀ cl ∈ plainEnv.highlight
        ({ contents := "ab".toList, language := "rust".toList } : Code).contents
        ({ contents := "ab".toList, language := "rust".toList } : Code).language,
      emittedCodeWidth (codeMaxLineLength plainEnv.dimensions.columns 0) cl
        = codeMaxLineLength plainEnv.dimensions.columns 0 ∧
      (padCodeLine (codeMaxLineLength plainEnv.dimensions.columns 0) cl).take
          cl.formatted.dropLast.length = cl.formatted.dropLast :=
  code_block_uniform_width plainEnv
    { contents := "ab".toList, language := "rust".toList } 0
    (by decide) (by decide)

/-! ## C7 — the slide drawer's command sequence -/

theorem flush_not_mem_applyColors (c : Colors) :
    Command.flush ∉ applyColorsCmds c := by
  unfold applyColorsCmds
  cases c.background <;> cases c.foreground <;> simp

theorem flush_not_mem_drawUnits (dc : Colors) (sc ll : Nat) (fmt : TextFormat)
    (fuel : Nat) (lsf : Nat) (chunk rest : List Char) (cmds : List Command)
    (l : Nat)
    (h : drawUnits dc sc ll fmt fuel lsf chunk rest = some (cmds, l)) :
    Command.flush ∉ cmds := by
  induction fuel generalizing lsf chunk rest cmds l with
  | zero => simp [drawUnits] at h
  | succ fuel ih =>
      unfold drawUnits at h
      dsimp only at h
      by_cases hre : rest.isEmpty
      · rw [if_pos hre] at h
        simp only [Option.some.injEq, Prod.mk.injEq] at h
        obtain ⟨hcmds, -⟩ := h
        subst hcmds
        intro hmem
        rcases List.mem_append.mp hmem with h1 | h2
        · rcases List.mem_append.mp h1 with h3 | h4
          · split_ifs at h3 <;> simp at h3
          · simp at h4
        · exact flush_not_mem_applyColors dc h2
      · rw [if_neg hre] at h
        cases htr : truncate ll rest with
        | none =>
            rw [htr] at h
            dsimp only at h
            exact Option.noConfusion h
        | some p =>
            obtain ⟨c2, r2⟩ := p
            rw [htr] at h
            dsimp only at h
            cases hdu : drawUnits dc sc ll fmt fuel
                ((lsf + byteLen (styleChunk dc fmt chunk).content % 65536) % 65536)
                c2 r2 with
            | none =>
                rw [hdu] at h
                exact Option.noConfusion h
            | some q =>
                obtain ⟨more, l2⟩ := q
                rw [hdu] at h
                dsimp only at h
                simp only [Option.some.injEq, Prod.mk.injEq] at h
                obtain ⟨hcmds, -⟩ := h
                subst hcmds
                intro hmem
                rcases List.mem_append.mp hmem with h1 | h2
                · rcases List.mem_append.mp h1 with h3 | h4
                  · rcases List.mem_append.mp h3 with h5 | h6
                    · split_ifs at h5 <;> simp at h5
                    · simp at h6
                  · exact flush_not_mem_applyColors dc h4
                · exact ih _ _ _ _ _ hdu h2

theorem flush_not_mem_drawOneElement (dc : Colors) (sc ll lsf : Nat)
    (e : FormattedText) (cmds : List Command) (l : Nat)
    (h : drawOneElement dc sc ll lsf e = some (cmds, l)) :
    Command.flush ∉ cmds := by
  unfold drawOneElement at h
  cases htr : truncate ll e.text with
  | none => rw [htr] at h; exact Option.noConfusion h
  | some p =>
      obtain ⟨chunk, rest⟩ := p
      rw [htr] at h
      dsimp only at h
      exact flush_not_mem_drawUnits dc sc ll e.format _ _ _ _ _ _ h

theorem flush_not_mem_drawElementsLoop (dc : Colors) (sc ll : Nat)
    (es : List FormattedText) (lsf : Nat) (cmds : List Command)
    (h : drawElementsLoop dc sc ll lsf es = some cmds) :
    Command.flush ∉ cmds := by
  induction es generalizing lsf cmds with
  | nil =>
      unfold drawElementsLoop at h
      simp at h
      subst h
      simp
  | cons e es ih =>
      unfold drawElementsLoop at h
      cases h1 : drawOneElement dc sc ll lsf e with
      | none => rw [h1] at h; simp [Option.bind_eq_bind] at h
      | some q =>
          obtain ⟨c1, l1⟩ := q
          rw [h1] at h
          dsimp only at h
          cases h2 : drawElementsLoop dc sc ll l1 es with
          | none => rw [h2] at h; simp [Option.bind_eq_bind] at h
          | some more =>
              rw [h2] at h
              dsimp only at h
              simp only [Option.some.injEq] at h
              subst h
              intro hmem
              rcases List.mem_append.mp hmem with hm1 | hm2
              · exact flush_not_mem_drawOneElement dc sc ll lsf e c1 l1 h1 hm1
              · exact ih l1 more h2 hm2

theorem flush_not_mem_textDraw (td : TextDrawerState) (cmds : List Command)
    (h : TextDrawer.draw td = some cmds) : Command.flush ∉ cmds := by
  unfold TextDrawer.draw at h
  cases h1 : drawElementsLoop td.defaultColors td.startColumn td.lineLength 0
      td.elements with
  | none => rw [h1] at h; simp [Option.bind_eq_bind] at h
  | some inner =>
      rw [h1] at h
      simp only [Option.some.injEq] at h
      subst h
      intro hmem
      rcases List.mem_cons.mp hmem with hm1 | hm2
      · exact Command.noConfusion hm1
      · exact flush_not_mem_drawElementsLoop _ _ _ _ _ _ h1 hm2

theorem flush_not_mem_drawFormattedTexts (env : DrawEnv) (style : ElementStyle)
    (texts : List FormattedText) (cmds : List Command)
    (h : drawFormattedTexts env style texts = some cmds) :
    Command.flush ∉ cmds := by
  unfold drawFormattedTexts at h
  split_ifs at h with he
  · simp at h
    subst h
    simp
  · cases h1 : TextDrawer.new style texts env.dimensions env.theme.colors with
    | none => rw [h1] at h; simp [Option.bind_eq_bind] at h
    | some td =>
        rw [h1] at h
        simp only [Option.bind_eq_bind, Option.some_bind] at h
        exact flush_not_mem_textDraw td cmds h

theorem flush_not_mem_drawImageCmds (env : DrawEnv) (url : List Char)
    (cmds : List Command) (h : drawImageCmds env url = some cmds) :
    Command.flush ∉ cmds := by
  unfold drawImageCmds at h
  split_ifs at h
  simp at h
  subst h
  simp

theorem flush_not_mem_drawTextLoop (env : DrawEnv) (style : ElementStyle)
    (chunks : List TextChunk) (texts : List FormattedText)
    (cmds : List Command)
    (h : drawTextLoop env style chunks texts = some cmds) :
    Command.flush ∉ cmds := by
  induction chunks generalizing texts cmds with
  | nil => exact flush_not_mem_drawFormattedTexts env style texts cmds h
  | cons ck rest ih =>
      cases ck with
      | formatted ft =>
          unfold drawTextLoop at h
          exact ih (texts ++ [ft]) cmds h
      | image url =>
          unfold drawTextLoop at h
          cases h1 : drawFormattedTexts env style texts with
          | none => rw [h1] at h; simp [Option.bind_eq_bind] at h
          | some c1 =>
              rw [h1] at h
              simp only [Option.bind_eq_bind, Option.some_bind] at h
              cases h2 : drawImageCmds env url with
              | none => rw [h2] at h; simp [Option.bind_eq_bind] at h
              | some c2 =>
                  rw [h2] at h
                  simp only [Option.bind_eq_bind, Option.some_bind] at h
                  cases h3 : drawTextLoop env style rest [] with
                  | none => rw [h3] at h; simp [Option.bind_eq_bind] at h
                  | some c3 =>
                      rw [h3] at h
                      simp only [Option.bind_eq_bind, Option.some_bind] at h
                      simp only [Option.some.injEq] at h
                      subst h
                      intro hmem
                      rcases List.mem_append.mp hmem with hm | hm3
                      · rcases List.mem_append.mp hm with hm1 | hm2
                        · exact flush_not_mem_drawFormattedTexts env style
                            texts c1 h1 hm1
                        · exact flush_not_mem_drawImageCmds env url c2 h2 hm2
                      · exact ih [] c3 h3 hm3
      | lineBreak =>
          unfold drawTextLoop at h
          cases h1 : drawFormattedTexts env style texts with
          | none => rw [h1] at h; simp [Option.bind_eq_bind] at h
          | some c1 =>
              rw [h1] at h
              simp only [Option.bind_eq_bind, Option.some_bind] at h
              cases h3 : drawTextLoop env style rest [] with
              | none => rw [h3] at h; simp [Option.bind_eq_bind] at h
              | some c3 =>
                  rw [h3] at h
                  simp only [Option.bind_eq_bind, Option.some_bind] at h
                  simp only [Option.some.injEq] at h
                  subst h
                  intro hmem
                  rcases List.mem_append.mp hmem with hm | hm3
                  · rcases List.mem_append.mp hm with hm1 | hm2
                    · exact flush_not_mem_drawFormattedTexts env style
                        texts c1 h1 hm1
                    · simp at hm2
                  · exact ih [] c3 h3 hm3

theorem flush_not_mem_drawText (env : DrawEnv) (text : Text)
    (pe : ElementType) (cmds : List Command)
    (h : drawText env text pe = some cmds) : Command.flush ∉ cmds := by
  unfold drawText at h
  exact flush_not_mem_drawTextLoop env _ text.chunks [] cmds h

theorem flush_not_mem_metadataSubTitle (env : DrawEnv) (st : Option (List Char))
    (cmds : List Command) (h : metadataSubTitleCmds env st = some cmds) :
    Command.flush ∉ cmds := by
  cases st with
  | none =>
      unfold metadataSubTitleCmds at h
      simp at h
      subst h
      simp
  | some t =>
      unfold metadataSubTitleCmds at h
      dsimp only at h
      cases h1 : drawText env ⟨[TextChunk.formatted (FormattedText.plain t)]⟩
          .presentationSubTitle with
      | none => rw [h1] at h; exact Option.noConfusion h
      | some c =>
          rw [h1] at h
          simp only [Option.some.injEq] at h
          subst h
          intro hmem
          rcases List.mem_append.mp hmem with hm1 | hm2
          · exact flush_not_mem_drawText env _ _ c h1 hm1
          · simp at hm2

theorem flush_not_mem_metadataAuthor (env : DrawEnv) (au : Option (List Char))
    (cmds : List Command) (h : metadataAuthorCmds env au = some cmds) :
    Command.flush ∉ cmds := by
  cases au with
  | none =>
      unfold metadataAuthorCmds at h
      simp at h
      subst h
      simp
  | some t =>
      unfold metadataAuthorCmds at h
      dsimp only at h
      cases h1 : drawText env ⟨[TextChunk.formatted (FormattedText.plain t)]⟩
          .presentationAuthor with
      | none => rw [h1] at h; exact Option.noConfusion h
      | some c =>
          rw [h1] at h
          simp only [Option.some.injEq] at h
          subst h
          intro hmem
          rcases List.mem_append.mp hmem with hm1 | hm2
          · cases henv : env.theme.authorPositioning <;>
              rw [henv] at hm1 <;> simp at hm1
          · exact flush_not_mem_drawText env _ _ c h1 hm2

theorem flush_not_mem_drawPresentationMetadata (env : DrawEnv)
    (m : PresentationMetadata) (cmds : List Command)
    (h : drawPresentationMetadata env m = some cmds) :
    Command.flush ∉ cmds := by
  unfold drawPresentationMetadata at h
  cases h1 : drawText env
      ⟨[TextChunk.formatted
          { text := m.title, format := { bold := true, italics := false, code := false } }]⟩
      .presentationTitle with
  | none => rw [h1] at h; exact Option.noConfusion h
  | some c1 =>
      rw [h1] at h
      dsimp only at h
      cases h2 : metadataSubTitleCmds env m.subTitle with
      | none => rw [h2] at h; exact Option.noConfusion h
      | some c2 =>
          rw [h2] at h
          dsimp only at h
          cases h3 : metadataAuthorCmds env m.author with
          | none => rw [h3] at h; exact Option.noConfusion h
          | some c3 =>
              rw [h3] at h
              simp only [Option.some.injEq] at h
              subst h
              intro hmem
              rcases List.mem_cons.mp hmem with hm | hm
              · exact Command.noConfusion hm
              · rcases List.mem_append.mp hm with hma | hm3
                · rcases List.mem_append.mp hma with hmb | hm2
                  · rcases List.mem_append.mp hmb with hm1 | hmc
                    · exact flush_not_mem_drawText env _ _ c1 h1 hm1
                    · simp at hmc
                  · exact flush_not_mem_metadataSubTitle env m.subTitle c2 h2 hm2
                · exact flush_not_mem_metadataAuthor env m.author c3 h3 hm3

theorem flush_not_mem_drawSlideTitle (env : DrawEnv) (text : Text)
    (cmds : List Command) (h : drawSlideTitle env text = some cmds) :
    Command.flush ∉ cmds := by
  unfold drawSlideTitle at h
  cases h1 : drawText env text .slideTitle with
  | none => rw [h1] at h; simp [Option.bind_eq_bind] at h
  | some c =>
      rw [h1] at h
      simp only [Option.bind_eq_bind, Option.some_bind, Option.some.injEq] at h
      subst h
      intro hmem
      rcases List.mem_append.mp hmem with hm | hm4
      · rcases List.mem_append.mp hm with hma | hm3
        · rcases List.mem_append.mp hma with hmb | hm2
          · rcases List.mem_append.mp hmb with hm1 | hmc
            · simp at hm1
            · exact flush_not_mem_drawText env _ _ c h1 hmc
          · simp at hm2
        · exact flush_not_mem_applyColors env.theme.colors hm3
      · simp at hm4

theorem flush_not_mem_drawHeading (env : DrawEnv) (text : Text) (level : Nat)
    (cmds : List Command) (h : drawHeading env text level = some cmds) :
    Command.flush ∉ cmds := by
  unfold drawHeading at h
  cases h1 : drawText env text .heading1 with
  | none => rw [h1] at h; simp [Option.bind_eq_bind] at h
  | some c =>
      rw [h1] at h
      simp only [Option.bind_eq_bind, Option.some_bind, Option.some.injEq] at h
      subst h
      intro hmem
      rcases List.mem_cons.mp hmem with hm | hm
      · exact Command.noConfusion hm
      · rcases List.mem_append.mp hm with hm1 | hm2
        · exact flush_not_mem_drawText env _ _ c h1 hm1
        · simp at hm2

theorem flush_not_mem_drawParagraph (env : DrawEnv) (text : Text)
    (cmds : List Command) (h : drawParagraph env text = some cmds) :
    Command.flush ∉ cmds := by
  unfold drawParagraph at h
  cases h1 : drawText env text .paragraph with
  | none => rw [h1] at h; simp [Option.bind_eq_bind] at h
  | some c =>
      rw [h1] at h
      simp only [Option.bind_eq_bind, Option.some_bind, Option.some.injEq] at h
      subst h
      intro hmem
      rcases List.mem_append.mp hmem with hm1 | hm2
      · exact flush_not_mem_drawText env _ _ c h1 hm1
      · simp at hm2

theorem flush_not_mem_drawListItem (env : DrawEnv) (item : ListItem)
    (cmds : List Command) (h : drawListItem env item = some cmds) :
    Command.flush ∉ cmds := by
  unfold drawListItem at h
  dsimp only at h
  cases h1 : drawText env
      ⟨TextChunk.formatted (FormattedText.plain (listItemMarker item)) ::
        item.contents.chunks⟩ .list with
  | none => rw [h1] at h; simp [Option.bind_eq_bind] at h
  | some c =>
      rw [h1] at h
      simp only [Option.bind_eq_bind, Option.some_bind, Option.some.injEq] at h
      subst h
      intro hmem
      rcases List.mem_append.mp hmem with hm1 | hm2
      · exact flush_not_mem_drawText env _ _ c h1 hm1
      · simp at hm2

theorem flush_not_mem_drawListItems (env : DrawEnv) (items : List ListItem)
    (cmds : List Command) (h : drawListItems env items = some cmds) :
    Command.flush ∉ cmds := by
  induction items generalizing cmds with
  | nil =>
      unfold drawListItems at h
      simp at h
      subst h
      simp
  | cons i is ih =>
      unfold drawListItems at h
      cases h1 : drawListItem env i with
      | none => rw [h1] at h; simp [Option.bind_eq_bind] at h
      | some c =>
          rw [h1] at h
          simp only [Option.bind_eq_bind, Option.some_bind] at h
          cases h2 : drawListItems env is with
          | none => rw [h2] at h; simp [Option.bind_eq_bind] at h
          | some cs =>
              rw [h2] at h
              simp only [Option.bind_eq_bind, Option.some_bind,
                Option.some.injEq] at h
              subst h
              intro hmem
              rcases List.mem_append.mp hmem with hm1 | hm2
              · exact flush_not_mem_drawListItem env i c h1 hm1
              · exact ih cs h2 hm2

theorem flush_not_mem_drawList (env : DrawEnv) (items : List ListItem)
    (cmds : List Command) (h : drawList env items = some cmds) :
    Command.flush ∉ cmds := by
  unfold drawList at h
  cases h1 : drawListItems env items with
  | none => rw [h1] at h; simp [Option.bind_eq_bind] at h
  | some c =>
      rw [h1] at h
      simp only [Option.bind_eq_bind, Option.some_bind, Option.some.injEq] at h
      subst h
      intro hmem
      rcases List.mem_append.mp hmem with hm1 | hm2
      · exact flush_not_mem_drawListItems env items c h1 hm1
      · simp at hm2

theorem flush_not_mem_drawCode (env : DrawEnv) (code : Code)
    (cmds : List Command) (h : drawCode env code = some cmds) :
    Command.flush ∉ cmds := by
  unfold drawCode at h
  cases h1 : codeStartColumn env code with
  | none => rw [h1] at h; simp [Option.bind_eq_bind] at h
  | some sc =>
      rw [h1] at h
      simp only [Option.bind_eq_bind, Option.some_bind, Option.some.injEq] at h
      subst h
      intro hmem
      rcases List.mem_cons.mp hmem with hm | hm
      · exact Command.noConfusion hm
      · rcases List.mem_append.mp hm with hm1 | hm2
        · rw [List.mem_flatten] at hm1
          obtain ⟨l, hl, hml⟩ := hm1
          rw [List.mem_map] at hl
          obtain ⟨cl, -, hcl⟩ := hl
          subst hcl
          simp at hml
        · simp at hm2

theorem flush_not_mem_drawElement (env : DrawEnv) (e : Element)
    (cmds : List Command) (h : drawElement env e = some cmds) :
    Command.flush ∉ cmds := by
  cases e with
  | presentationMetadata m => exact flush_not_mem_drawPresentationMetadata env m cmds h
  | slideTitle text => exact flush_not_mem_drawSlideTitle env text cmds h
  | heading text level => exact flush_not_mem_drawHeading env text level cmds h
  | paragraph text => exact flush_not_mem_drawParagraph env text cmds h
  | list items => exact flush_not_mem_drawList env items cmds h
  | code c => exact flush_not_mem_drawCode env c cmds h

theorem flush_not_mem_drawSlideElements (env : DrawEnv) (es : List Element)
    (cmds : List Command) (h : drawSlideElements env es = some cmds) :
    Command.flush ∉ cmds := by
  induction es generalizing cmds with
  | nil =>
      unfold drawSlideElements at h
      simp at h
      subst h
      simp
  | cons e es ih =>
      unfold drawSlideElements at h
      cases h1 : drawElement env e with
      | none => rw [h1] at h; simp [Option.bind_eq_bind] at h
      | some c =>
          rw [h1] at h
          simp only [Option.bind_eq_bind, Option.some_bind] at h
          cases h2 : drawSlideElements env es with
          | none => rw [h2] at h; simp [Option.bind_eq_bind] at h
          | some cs =>
              rw [h2] at h
              simp only [Option.bind_eq_bind, Option.some_bind,
                Option.some.injEq] at h
              subst h
              intro hmem
              rcases List.mem_append.mp hmem with hm | hm2
              · rcases List.mem_append.mp hm with hm0 | hm1
                · exact flush_not_mem_applyColors env.theme.colors hm0
                · exact flush_not_mem_drawElement env e c h1 hm1
              · exact ih cs h2 hm2

/-- C7: on every successful slide draw, the emitted sequence is exactly:
apply the theme's default colors, clear the full screen, move to the home
position, then for each element in order the re-applied default colors
followed by that element's drawer output, and finally a single flush at
the very end — no flush occurs anywhere earlier. -/
theorem slide_draw_sequence (env : DrawEnv) (slide : Slide)
    (cmds : List Command) (h : SlideDrawer.drawSlide env slide = some cmds) :
    ∃ body, drawSlideElements env slide.elements = some body ∧
      cmds = applyColorsCmds env.theme.colors ++
        [Command.clearAll, Command.moveTo 0 0] ++ body ++ [Command.flush] ∧
      Command.flush ∉ applyColorsCmds env.theme.colors ∧
      Command.flush ∉ body ∧
      cmds.count Command.flush = 1 ∧
      cmds.getLast? = some Command.flush := by
  unfold SlideDrawer.drawSlide at h
  cases h1 : drawSlideElements env slide.elements with
  | none => rw [h1] at h; simp [Option.bind_eq_bind] at h
  | some body =>
      rw [h1] at h
      simp only [Option.bind_eq_bind, Option.some_bind, Option.some.injEq] at h
      subst h
      have hnb : Command.flush ∉ body :=
        flush_not_mem_drawSlideElements env slide.elements body h1
      have hnc : Command.flush ∉ applyColorsCmds env.theme.colors :=
        flush_not_mem_applyColors _
      refine ⟨body, rfl, rfl, hnc, hnb, ?_, ?_⟩
      · rw [List.count_append, List.count_append, List.count_append]
        rw [List.count_eq_zero.mpr hnc, List.count_eq_zero.mpr hnb]
        decide
      · rw [List.getLast?_concat]

/-- Witness: C7 at a one-paragraph slide in `plainEnv`; the drawn
sequence is clear, home, the paragraph's text commands, then the single
flush. -/
theorem slide_draw_sequence_witness :
    ∃ body,
      drawSlideElements plainEnv
        [Element.paragraph ⟨[TextChunk.formatted (FormattedText.plain ("hi".toList))]⟩]
        = some body ∧
      [Command.clearAll, Command.moveTo 0 0, Command.moveToColumn 0,
        Command.printStyled
          { content := "hi".toList, bold := false, italic := false, color := none },
        Command.moveToNextLine 2, Command.flush]
        = applyColorsCmds plainEnv.theme.colors ++
          [Command.clearAll, Command.moveTo 0 0] ++ body ++ [Command.flush] ∧
      Command.flush ∉ applyColorsCmds plainEnv.theme.colors ∧
      Command.flush ∉ body ∧
      ([Command.clearAll, Command.moveTo 0 0, Command.moveToColumn 0,
        Command.printStyled
          { content := "hi".toList, bold := false, italic := false, color := none },
        Command.moveToNextLine 2, Command.flush] : List Command).count Command.flush
        = 1 ∧
      ([Command.clearAll, Command.moveTo 0 0, Command.moveToColumn 0,
        Command.printStyled
          { content := "hi".toList, bold := false, italic := false, color := none },
        Command.moveToNextLine 2, Command.flush] : List Command).getLast?
        = some Command.flush :=
  slide_draw_sequence plainEnv
    ⟨[Element.paragraph ⟨[TextChunk.formatted (FormattedText.plain ("hi".toList))]⟩]⟩
    [Command.clearAll, Command.moveTo 0 0, Command.moveToColumn 0,
      Command.printStyled
        { content := "hi".toList, bold := false, italic := false, color := none },
      Command.moveToNextLine 2, Command.flush]
    (by decide)

/-! ## C8 — session guard teardown -/

/-- C8: on teardown of the session guard, both the cursor-show command
and the raw-mode disable are issued unconditionally (their order and
presence independent of any failure flags), any failure of the
restoration steps is swallowed (`Drop` returns without raising), and the
session's result is exactly the body's result — teardown never masks the
original error on any exit path. -/
theorem session_teardown_restores (bodyActions : List TermAction)
    (bodyResult : Except DrawFailure Unit)
    (showCursorFails disableRawFails : Bool) :
    (runDrawerSession bodyActions bodyResult showCursorFails disableRawFails).1
      = [TermAction.enableRawMode, TermAction.queueCursorHide] ++ bodyActions ++
        [TermAction.queueCursorShow, TermAction.disableRawMode] ∧
    (runDrawerSession bodyActions bodyResult showCursorFails disableRawFails).2
      = bodyResult ∧
    (Drawer.drop showCursorFails disableRawFails).1
      = [TermAction.queueCursorShow, TermAction.disableRawMode] ∧
    (Drawer.drop showCursorFails disableRawFails).2 = Except.ok () :=
  ⟨rfl, rfl, rfl, rfl⟩

/-! ## C10 — the 3-row footer reservation -/

/-- C10: `Drawer::draw_slide` subtracts the 3-row footer reservation with
an unchecked `u16` subtraction; for every window reporting fewer than 3
rows the subtraction underflows (modelled as `none`), so the entry point
is well-defined exactly under the unstated precondition `rows ≥ 3`, in
which case it draws with `rows − 3`. -/
theorem footer_reservation_underflow :
    (∀ (env : DrawEnv) (slide : Slide), env.dimensions.rows < 3 →
        Drawer.drawSlide env slide = none) ∧
    (∀ (env : DrawEnv) (slide : Slide), 3 ≤ env.dimensions.rows →
        Drawer.drawSlide env slide =
          SlideDrawer.drawSlide
            { env with dimensions :=
                { env.dimensions with rows := env.dimensions.rows - 3 } }
            slide) := by
  constructor
  · intro env slide hr
    unfold Drawer.drawSlide footerAdjustedRows
    rw [if_pos hr]
    rfl
  · intro env slide hr
    unfold Drawer.drawSlide footerAdjustedRows
    rw [if_neg (by omega)]
    rfl

/-- Witness: C10 at a 2-row window (underflow, `none`) and at the 24-row
`plainEnv` (draws with 21 rows). -/
theorem footer_reservation_underflow_witness :
    Drawer.drawSlide shortEnv ⟨[]⟩ = none ∧
    Drawer.drawSlide plainEnv ⟨[]⟩ =
      SlideDrawer.drawSlide
        { plainEnv with dimensions :=
            { plainEnv.dimensions with rows := plainEnv.dimensions.rows - 3 } }
        ⟨[]⟩ :=
  ⟨footer_reservation_underflow.1 shortEnv ⟨[]⟩ (by decide),
   footer_reservation_underflow.2 plainEnv ⟨[]⟩ (by decide)⟩

end Presenterm
